import Mathlib

/-!
Shallow embedding of the PostgreSQL storage adapter of a multi-user chat
service (`server/db/postgres/adapter.go`) and proofs of the specification
claims about it.  SQL statements are modelled as pure functions over lists
of table rows; machine integers are `Nat`/`Int`; fallible operations return
explicit result values.
-/

namespace ChatAdapter

/-! ## Identifier codec

`store.EncodeUid` / `store.DecodeUid` / `t.ParseUid` / `Uid.String` live in
the `store`/`types` packages, which are not part of the ported sources; they
are modelled from the spec (§4.1): encode/decode are mutual inverses for all
valid numeric ids, and decoding a malformed opaque string yields the zero
identifier, never an error.  Ids are nonnegative, so they are modelled as
`Nat` and the opaque string form as the decimal representation.
-/

/-- Modelled from the spec: the opaque identifier, a wrapper around the
internal numeric key (`store/types` is not in the ported sources).  The
obfuscation is a bijection, modelled as the identity on the numeric key. -/
structure Uid where
  raw : Nat
deriving DecidableEq, Repr

/-- Modelled from the spec: the zero-identifier sentinel. -/
def ZeroUid : Uid := ⟨0⟩

/-- Modelled from the spec: `store.EncodeUid`, internal numeric key to opaque id. -/
def EncodeUid (n : Nat) : Uid := ⟨n⟩

/-- Modelled from the spec: `store.DecodeUid`, opaque id to internal numeric key. -/
def DecodeUid (u : Uid) : Nat := u.raw

/-- Modelled from the spec: `Uid.IsZero`. -/
def Uid.IsZero (u : Uid) : Bool := u.raw == 0

/-- Big-endian decimal digits of the second argument; the first argument is
recursion fuel (the number itself is always enough fuel). -/
def toDecimalAux : Nat → Nat → List Nat
  | 0, _ => []
  | fuel+1, n => if n = 0 then [] else toDecimalAux fuel (n / 10) ++ [n % 10]

/-- Big-endian decimal digits of `n` (`[]` for `0`). -/
def toDecimal (n : Nat) : List Nat := toDecimalAux n n

/-- Modelled from the spec: the opaque string form of an identifier
(`Uid.String` in `store/types`), the decimal representation of the key. -/
def Uid.str (u : Uid) : String := ⟨(toDecimal u.raw).map Nat.digitChar⟩

/-- Numeric value of a decimal digit character, `none` for a non-digit. -/
def digitVal (c : Char) : Option Nat := if c.isDigit then some (c.toNat - 48) else none

/-- Parse a string of decimal digits; `none` when the string is empty or
contains a non-digit character. -/
def parseNat10 (s : String) : Option Nat :=
  if s.data = [] then none
  else s.data.foldl (fun acc c =>
    match acc, digitVal c with
    | some a, some d => some (a * 10 + d)
    | _, _ => none) (some 0)

/-- A nonempty all-digit string. -/
def isDecimal (s : String) : Bool := !s.data.isEmpty && s.data.all (·.isDigit)

/-- Modelled from the spec: `t.ParseUid` — decoding a malformed opaque string
yields the zero identifier and no error. -/
def ParseUid (s : String) : Uid :=
  match parseNat10 s with
  | some n => ⟨n⟩
  | none => ZeroUid

/-- Go `strconv.ParseInt(str, 10, 64)` with the returned error ignored: a
string that is not a decimal number parses as 0 (negative and overflowing
inputs are outside the id domain and not modelled). -/
def goParseInt10 (s : String) : Nat := (parseNat10 s).getD 0

/-- `encodeUidString` (adapter.go:2659): decimal string of the stored numeric
key to opaque id, falling back to the zero value on a parse failure. -/
def encodeUidString (s : String) : Uid := EncodeUid (goParseInt10 s)

/-- `decodeUidString` (adapter.go:2664): opaque uid string to stored numeric
key, falling back to the zero value on a parse failure. -/
def decodeUidString (s : String) : Nat := DecodeUid (ParseUid s)

/-! ### Codec round-trip lemmas -/

theorem toDecimalAux_foldl (fuel : Nat) : ∀ n a, n ≤ fuel →
    (toDecimalAux fuel n).foldl (fun x d => x * 10 + d) a
      = a * 10 ^ (toDecimalAux fuel n).length + n := by
  induction fuel with
  | zero =>
    intro n a hn
    interval_cases n
    simp [toDecimalAux]
  | succ fuel ih =>
    intro n a hn
    by_cases h0 : n = 0
    · simp [toDecimalAux, h0]
    · have hdiv : n / 10 ≤ fuel := by omega
      have hrec := ih (n / 10) a hdiv
      simp only [toDecimalAux, if_neg h0, List.foldl_append, List.foldl_cons,
        List.foldl_nil, List.length_append, List.length_cons, List.length_nil, hrec]
      have hmod := Nat.div_add_mod n 10
      rw [pow_succ]
      ring_nf
      omega

theorem toDecimalAux_lt_ten (fuel : Nat) : ∀ n d, d ∈ toDecimalAux fuel n → d < 10 := by
  induction fuel with
  | zero => intro n d hd; simp [toDecimalAux] at hd
  | succ fuel ih =>
    intro n d hd
    by_cases h0 : n = 0
    · simp [toDecimalAux, h0] at hd
    · simp only [toDecimalAux, if_neg h0, List.mem_append, List.mem_singleton] at hd
      rcases hd with hd | hd
      · exact ih _ _ hd
      · subst hd; exact Nat.mod_lt _ (by omega)

theorem digitVal_digitChar : ∀ d, d < 10 → digitVal (Nat.digitChar d) = some d := by decide

theorem foldl_map_digitChar (l : List Nat) (hl : ∀ d ∈ l, d < 10) : ∀ a : Nat,
    (l.map Nat.digitChar).foldl (fun acc c =>
        match acc, digitVal c with
        | some a, some d => some (a * 10 + d)
        | _, _ => none) (some a)
      = some (l.foldl (fun x d => x * 10 + d) a) := by
  induction l with
  | nil => intro a; simp
  | cons d l ih =>
    intro a
    have hd : d < 10 := hl d (List.mem_cons_self d l)
    have hl' : ∀ x ∈ l, x < 10 := fun x hx => hl x (List.mem_cons_of_mem d hx)
    simp only [List.map_cons, List.foldl_cons, digitVal_digitChar d hd]
    exact ih hl' (a * 10 + d)

theorem toDecimal_ne_nil (n : Nat) (hn : 1 ≤ n) : toDecimal n ≠ [] := by
  cases n with
  | zero => omega
  | succ m =>
    show toDecimalAux (m + 1) (m + 1) ≠ []
    simp [toDecimalAux]

theorem parseNat10_toDecimal (n : Nat) (hn : 1 ≤ n) :
    parseNat10 ⟨(toDecimal n).map Nat.digitChar⟩ = some n := by
  have hne : (toDecimal n).map Nat.digitChar ≠ [] := by
    intro h
    exact toDecimal_ne_nil n hn (List.map_eq_nil_iff.mp h)
  have hdig : ∀ d ∈ toDecimal n, d < 10 := fun d hd => toDecimalAux_lt_ten n n d hd
  unfold parseNat10
  simp only [String.data]
  rw [if_neg hne, foldl_map_digitChar (toDecimal n) hdig 0]
  simp only [toDecimal]
  rw [toDecimalAux_foldl n n 0 (le_refl n)]
  simp

theorem foldl_digit_none (l : List Char) :
    l.foldl (fun acc c =>
        match acc, digitVal c with
        | some a, some d => some (a * 10 + d)
        | _, _ => none) none = none := by
  induction l with
  | nil => rfl
  | cons c l ih =>
    simp only [List.foldl_cons]
    cases digitVal c <;> exact ih

theorem parseNat10_none_of_not_decimal (s : String) (h : isDecimal s = false) :
    parseNat10 s = none := by
  unfold isDecimal at h
  unfold parseNat10
  by_cases hnil : s.data = []
  · simp [hnil]
  · rw [if_neg hnil]
    simp only [Bool.and_eq_false_iff, Bool.not_eq_false', List.isEmpty_iff] at h
    rcases h with h | h
    · exact absurd h hnil
    · have h2 : ¬ ∀ c ∈ s.data, c.isDigit = true := by
        rw [← List.all_eq_true, h]; simp
      push_neg at h2
      obtain ⟨c, hc, hcd⟩ := h2
      have key : ∀ (l : List Char) (acc : Option Nat), (∃ c ∈ l, c.isDigit = false) →
          l.foldl (fun acc c =>
            match acc, digitVal c with
            | some a, some d => some (a * 10 + d)
            | _, _ => none) acc = none := by
        intro l
        induction l with
        | nil => intro acc h; simp at h
        | cons x l ih =>
          intro acc h
          rcases h with ⟨c, hc, hcd⟩
          rcases List.mem_cons.mp hc with rfl | hmem
          · have hdv : digitVal c = none := by simp [digitVal, hcd]
            simp only [List.foldl_cons, hdv]
            cases acc <;> exact foldl_digit_none l
          · exact ih _ ⟨c, hmem, hcd⟩
      exact key s.data (some 0) ⟨c, hc, by simp [hcd]⟩

/-- C9: for every valid numeric id `n ≥ 1`, decoding the encoded opaque form
of `n` yields `n` back, and decoding a malformed (non-decimal) opaque string
yields the zero-identifier sentinel without any error: `encodeUidString` of a
non-numeric string and `decodeUidString` of an unparsable uid string both
fall back to the zero value. -/
theorem c9_uid_codec_roundtrip :
    (∀ n : Nat, 1 ≤ n →
      decodeUidString (Uid.str (EncodeUid n)) = n ∧
      ParseUid (Uid.str (EncodeUid n)) = EncodeUid n ∧
      DecodeUid (EncodeUid n) = n) ∧
    (∀ s : String, isDecimal s = false →
      ParseUid s = ZeroUid ∧ decodeUidString s = 0 ∧ encodeUidString s = ZeroUid) := by
  constructor
  · intro n hn
    have hp : parseNat10 (Uid.str (EncodeUid n)) = some n := parseNat10_toDecimal n hn
    refine ⟨?_, ?_, rfl⟩
    · unfold decodeUidString ParseUid
      rw [hp]
      rfl
    · unfold ParseUid
      rw [hp]
      rfl
  · intro s hs
    have hp : parseNat10 s = none := parseNat10_none_of_not_decimal s hs
    refine ⟨?_, ?_, ?_⟩
    · simp [ParseUid, hp]
    · simp [decodeUidString, ParseUid, hp, DecodeUid, ZeroUid]
    · simp [encodeUidString, goParseInt10, hp, EncodeUid, ZeroUid]

/-- Witness for C9 at the concrete id 42 and the concrete malformed string
"garbage". -/
theorem c9_uid_codec_roundtrip_witness :
    decodeUidString (Uid.str (EncodeUid 42)) = 42 ∧
    ParseUid "garbage" = ZeroUid ∧ encodeUidString "garbage" = ZeroUid := by
  refine ⟨(c9_uid_codec_roundtrip.1 42 (by decide)).1, ?_, ?_⟩
  · exact (c9_uid_codec_roundtrip.2 "garbage" (by decide)).1
  · exact (c9_uid_codec_roundtrip.2 "garbage" (by decide)).2.2

/-! ## Ordering helper: `ORDER BY key DESC` is modelled by insertion sort -/

def insertDescBy {α : Type} (key : α → Int) (a : α) : List α → List α
  | [] => [a]
  | b :: l => if key b ≤ key a then a :: b :: l else b :: insertDescBy key a l

def sortDescBy {α : Type} (key : α → Int) : List α → List α
  | [] => []
  | a :: l => insertDescBy key a (sortDescBy key l)

/-- `ORDER BY key ASC`, as descending sort on the negated key. -/
def sortAscBy {α : Type} (key : α → Int) (l : List α) : List α :=
  sortDescBy (fun x => -(key x)) l

theorem mem_insertDescBy {α : Type} (key : α → Int) (a x : α) (l : List α) :
    x ∈ insertDescBy key a l ↔ x = a ∨ x ∈ l := by
  induction l with
  | nil => simp [insertDescBy]
  | cons b l ih =>
    by_cases h : key b ≤ key a
    · simp [insertDescBy, h]
    · simp only [insertDescBy, if_neg h, List.mem_cons, ih]
      tauto

theorem mem_sortDescBy {α : Type} (key : α → Int) (x : α) (l : List α) :
    x ∈ sortDescBy key l ↔ x ∈ l := by
  induction l with
  | nil => simp [sortDescBy]
  | cons a l ih => simp [sortDescBy, mem_insertDescBy, ih]

theorem length_insertDescBy {α : Type} (key : α → Int) (a : α) (l : List α) :
    (insertDescBy key a l).length = l.length + 1 := by
  induction l with
  | nil => rfl
  | cons b l ih =>
    by_cases h : key b ≤ key a
    · simp [insertDescBy, h]
    · simp [insertDescBy, h, ih]

theorem length_sortDescBy {α : Type} (key : α → Int) (l : List α) :
    (sortDescBy key l).length = l.length := by
  induction l with
  | nil => rfl
  | cons a l ih => simp [sortDescBy, length_insertDescBy, ih]

theorem pairwise_insertDescBy {α : Type} (key : α → Int) (a : α) (l : List α)
    (hl : l.Pairwise (fun x y => key y ≤ key x)) :
    (insertDescBy key a l).Pairwise (fun x y => key y ≤ key x) := by
  induction l with
  | nil => simp [insertDescBy]
  | cons b l ih =>
    rcases List.pairwise_cons.mp hl with ⟨hb, hl'⟩
    by_cases h : key b ≤ key a
    · rw [insertDescBy, if_pos h]
      refine List.pairwise_cons.mpr ⟨?_, hl⟩
      intro x hx
      rcases List.mem_cons.mp hx with rfl | hx
      · exact h
      · exact le_trans (hb x hx) h
    · rw [insertDescBy, if_neg h]
      refine List.pairwise_cons.mpr ⟨?_, ih hl'⟩
      intro x hx
      rcases (mem_insertDescBy key a x l).mp hx with rfl | hx
      · omega
      · exact hb x hx

theorem pairwise_sortDescBy {α : Type} (key : α → Int) (l : List α) :
    (sortDescBy key l).Pairwise (fun x y => key y ≤ key x) := by
  induction l with
  | nil => simp [sortDescBy]
  | cons a l ih => exact pairwise_insertDescBy key a _ ih

/-! ## Messages and the deletion-range log

Row types for the `messages` and `dellog` tables, with the columns the
modelled operations read or write (payload columns not touched by any claim
are elided). -/

structure MsgRow where
  seqid : Int
  topic : String
  fromUid : Nat
  delid : Int
  deletedat : Option Nat
  head : Option String
  content : Option String
deriving DecidableEq, Repr

structure DellogRow where
  topic : String
  deletedfor : Nat
  delid : Int
  low : Int
  hi : Int
deriving DecidableEq, Repr

/-- `t.Range`: a `[low, hi)` sequence-id range; `hi = 0` marks a
single-element range. -/
structure SeqRange where
  low : Int
  hi : Int
deriving DecidableEq, Repr

/-- `t.DelMessage`: one logical deletion event. -/
structure DelMessage where
  topic : String
  deletedFor : String
  delId : Int
  seqIdRanges : List SeqRange
deriving DecidableEq, Repr

/-- `t.QueryOpt` (the fields the modelled operations consult). -/
structure QueryOpt where
  user : Uid
  since : Int
  before : Int
  limit : Int
deriving Repr

/-- The WHERE/ON condition of the `MessageGetAll` query (adapter.go:1905-1911):
`LEFT JOIN dellog d ON d.topic=m.topic AND m.seqid BETWEEN d.low AND d.hi-1
AND d.deletedfor=$1 ... WHERE m.delid=0 AND m.topic=$2 AND m.seqid BETWEEN $3
AND $4 AND d.deletedfor IS NULL` — an anti-join: the row survives when no
deletion-log row for `unum` covers its seqid. -/
def msgVisible (dellog : List DellogRow) (topic : String) (unum : Nat)
    (lower upper : Int) (m : MsgRow) : Bool :=
  m.delid == 0 && m.topic == topic && decide (lower ≤ m.seqid) && decide (m.seqid ≤ upper) &&
    !(dellog.any fun d => d.topic == m.topic && decide (d.low ≤ m.seqid) &&
      decide (m.seqid ≤ d.hi - 1) && d.deletedfor == unum)

/-- The row set described by the `MessageGetAll` query (adapter.go:1885-1929)
— window and limit defaulting followed by the anti-join, `ORDER BY m.seqid
DESC LIMIT $5` — as it would be returned were the `from` column quoted
correctly.  The statement as written cannot execute on PostgreSQL; see
`messageGetAll`. -/
def messageGetAllRows (messages : List MsgRow) (dellog : List DellogRow)
    (topic : String) (forUser : Uid) (opts : Option QueryOpt) (maxResults : Int) :
    List MsgRow :=
  let lower : Int := match opts with
    | some o => if 0 < o.since then o.since else 0
    | none => 0
  let upper : Int := match opts with
    | some o => if 0 < o.before then o.before - 1 else 2 ^ 31
    | none => 2 ^ 31
  let limit : Int := match opts with
    | some o => if 0 < o.limit ∧ o.limit < maxResults then o.limit else maxResults
    | none => maxResults
  let unum := DecodeUid forUser
  (sortDescBy (fun m => m.seqid)
    (messages.filter (msgVisible dellog topic unum lower upper))).take limit.toNat

/-- `MessageGetAll` (adapter.go:1885-1929) as it actually behaves: the query
text at adapter.go:1906 quotes the `from` column MySQL-style with backticks,
which is a PostgreSQL syntax error, so `Queryx` fails on every call and the
function returns `(nil, err)` — modelled as `none`. -/
def messageGetAll (messages : List MsgRow) (dellog : List DellogRow)
    (topic : String) (forUser : Uid) (opts : Option QueryOpt) (maxResults : Int) :
    Option (List MsgRow) :=
  none

/-- Result of `messageDeleteList`: the updated `dellog` and `messages`
tables, the Go runtime panic raised by an out-of-range slice index, or a
relational-engine error (the enclosing transaction then rolls back, so no
state change survives). -/
inductive DelListResult where
  | ok (dellog : List DellogRow) (messages : List MsgRow)
  | indexOutOfRange
  | sqlError
deriving DecidableEq, Repr

/-- `messageDeleteList` (adapter.go:2000-2083).  `now` stands for
`t.TimeNow()`.  With `toDel = nil` the second statement (`DELETE FROM
messages WHERE topic=$2`, adapter.go:2006) references `$2` but receives one
argument, so it fails and the transaction rolls back.  With `toDel` present,
one dellog row per range is inserted (normalizing `hi = 0` to `low+1`);
when `DeletedFor` is empty and the range list is empty the Go code
evaluates `toDel.SeqIdRanges[0]` and panics with an index-out-of-range
runtime error (`indexOutOfRange`); when `DeletedFor` is empty and the range
list is nonempty, the MySQL-only `DELETE fml.* FROM ...` statement
(adapter.go:2066) is rejected by PostgreSQL and the transaction rolls back
(`sqlError`).  Only the per-user path commits. -/
def messageDeleteList (dellog : List DellogRow) (messages : List MsgRow)
    (topic : String) (toDel : Option DelMessage) (now : Nat) : DelListResult :=
  match toDel with
  | none => .sqlError
  | some toDel =>
    let forUser := decodeUidString toDel.deletedFor
    let newRows := toDel.seqIdRanges.map fun rng =>
      let hi := if rng.hi = 0 then rng.low + 1 else rng.hi
      DellogRow.mk topic forUser toDel.delId rng.low hi
    let dellog' := dellog ++ newRows
    if toDel.deletedFor = "" then
      match toDel.seqIdRanges with
      | [] => .indexOutOfRange
      | _ :: _ => .sqlError
    else
      .ok dellog' messages

/-- One step of the `MessageGetDeleted` row-scanning loop
(adapter.go:1969-1991).  The state is the accumulated result list together
with the `dmsg` being assembled.  Note that the Go loop carries
`dmsg.SeqIdRanges` and `dmsg.DeletedFor` over from one `delid` group to the
next without resetting them (the `SeqIdRanges == nil` check only replaces a
nil slice by an empty one, which is a no-op under `append`). -/
def delLogStep (st : List DelMessage × DelMessage) (row : DellogRow) :
    List DelMessage × DelMessage :=
  let st' :=
    if row.delid ≠ st.2.delId then
      let dmsgs' := if 0 < st.2.delId then st.1 ++ [st.2] else st.1
      let newFor := if 0 < row.deletedfor then (EncodeUid row.deletedfor).str else st.2.deletedFor
      (dmsgs', { st.2 with delId := row.delid, topic := row.topic, deletedFor := newFor })
    else st
  let hi := if row.hi ≤ row.low + 1 then 0 else row.hi
  (st'.1, { st'.2 with seqIdRanges := st'.2.seqIdRanges ++ [SeqRange.mk row.low hi] })

/-- `MessageGetDeleted` (adapter.go:1940-1998): fetch the dellog rows of the
topic with `deletedfor IN {0, forUser}` inside the delid window, ordered by
`delid` with a limit, then run the grouping loop over them. -/
def messageGetDeleted (dellog : List DellogRow) (topic : String) (forUser : Uid)
    (opts : Option QueryOpt) (maxResults : Int) : List DelMessage :=
  let lower : Int := match opts with
    | some o => if 0 < o.since then o.since else 0
    | none => 0
  let upper : Int := match opts with
    | some o => if 1 < o.before then o.before - 1 else 2 ^ 31
    | none => 2 ^ 31
  let limit : Int := match opts with
    | some o => if 0 < o.limit ∧ o.limit < maxResults then o.limit else maxResults
    | none => maxResults
  let rows := (sortAscBy (fun d => d.delid)
    (dellog.filter fun d => d.topic == topic && decide (lower ≤ d.delid) &&
      decide (d.delid ≤ upper) &&
      (d.deletedfor == 0 || d.deletedfor == DecodeUid forUser))).take limit.toNat
  let res := rows.foldl delLogStep ([], ⟨"", "", 0, []⟩)
  if 0 < res.2.delId then res.1 ++ [res.2] else res.1

/-- The per-user deletion semantics of the row set the `MessageGetAll`
query describes: a message whose seqid `s` lies in a range logged as
deleted-for-user `U` is absent from the listing for `U`, while the listing
for another user `V` — with no logged range of `V` covering `s` and no
global deletion of the message (`delid = 0`) — still contains the message
(provided the result window is not truncated by the row limit). -/
theorem messageGetAllRows_per_user_deletion (messages : List MsgRow) (dellog : List DellogRow)
    (topic : String) (U V : Uid) (s : Int) (d : DellogRow) (m : MsgRow)
    (hd : d ∈ dellog) (hdtopic : d.topic = topic) (hdfor : d.deletedfor = DecodeUid U)
    (hlow : d.low ≤ s) (hhi : s < d.hi)
    (hm : m ∈ messages) (hmtopic : m.topic = topic) (hms : m.seqid = s)
    (hdelid : m.delid = 0) (hpos : 0 ≤ s) (hupper : s ≤ 2 ^ 31)
    (hV : ∀ d' ∈ dellog, d'.topic = topic → d'.deletedfor = DecodeUid V →
      ¬(d'.low ≤ s ∧ s < d'.hi))
    (maxResults : Int)
    (hlen : ((messages.filter (msgVisible dellog topic (DecodeUid V) 0 (2 ^ 31))).length : Int)
      ≤ maxResults) :
    (∀ m' ∈ messageGetAllRows messages dellog topic U none maxResults, m'.seqid ≠ s) ∧
    m ∈ messageGetAllRows messages dellog topic V none maxResults := by
  constructor
  · intro m' hm' hseq
    have h1 : m' ∈ sortDescBy (fun m => m.seqid)
        (messages.filter (msgVisible dellog topic (DecodeUid U) 0 (2 ^ 31))) := by
      simp only [messageGetAllRows] at hm'
      exact List.Sublist.mem hm' (List.take_sublist _ _)
    have h2 : m' ∈ messages.filter (msgVisible dellog topic (DecodeUid U) 0 (2 ^ 31)) :=
      (mem_sortDescBy _ _ _).mp h1
    have h3 := (List.mem_filter.mp h2).2
    simp only [msgVisible, Bool.and_eq_true, beq_iff_eq, decide_eq_true_eq,
      Bool.not_eq_true', List.any_eq_false] at h3
    exact h3.2 d hd ⟨⟨⟨by rw [hdtopic, h3.1.1.1.2], by omega⟩, by omega⟩, hdfor⟩
  · have hfilter : m ∈ messages.filter (msgVisible dellog topic (DecodeUid V) 0 (2 ^ 31)) := by
      rw [List.mem_filter]
      refine ⟨hm, ?_⟩
      simp only [msgVisible, Bool.and_eq_true, beq_iff_eq, decide_eq_true_eq,
        Bool.not_eq_true', List.any_eq_false]
      refine ⟨⟨⟨⟨hdelid, hmtopic⟩, by omega⟩, by omega⟩, ?_⟩
      rintro d' hd' ⟨⟨⟨ht, hl⟩, hh⟩, hf⟩
      exact hV d' hd' (by rw [ht, hmtopic]) hf ⟨by omega, by omega⟩
    have hsort : m ∈ sortDescBy (fun m => m.seqid)
        (messages.filter (msgVisible dellog topic (DecodeUid V) 0 (2 ^ 31))) :=
      (mem_sortDescBy _ _ _).mpr hfilter
    have hall : (sortDescBy (fun m => m.seqid)
        (messages.filter (msgVisible dellog topic (DecodeUid V) 0 (2 ^ 31)))).length
          ≤ maxResults.toNat := by
      rw [length_sortDescBy]
      omega
    simp only [messageGetAllRows]
    rw [List.take_of_length_le hall]
    exact hsort

/-- The messages of topic `grp1` (seqids 1..5) used by the C1 theorem. -/
def demoC1Msgs : List MsgRow :=
  [⟨1, "grp1", 3, 0, none, none, none⟩, ⟨2, "grp1", 3, 0, none, none, none⟩,
   ⟨3, "grp1", 3, 0, none, none, none⟩, ⟨4, "grp1", 3, 0, none, none, none⟩,
   ⟨5, "grp1", 3, 0, none, none, none⟩]

/-- C1 (code bug): the `MessageGetAll` query text (adapter.go:1906) quotes
the `from` column MySQL-style with backticks, a PostgreSQL syntax error, so
the call always returns an error and no message list: after logging range
`[2,4)` as deleted for user 7 in topic `grp1` holding seqids 1..5, user 9
does not receive message 2 — or any message — contrary to the claim.  The
row set the query describes (`messageGetAllRows`, with the identifier
quoted correctly) does enforce per-user deletion: user 7's listing is
`[5,4,1]`, omitting seqid 2, while user 9's listing `[5,4,3,2,1]` contains
it. -/
theorem c1_message_get_all_errors :
    (∀ (messages : List MsgRow) (dellog : List DellogRow) (topic : String)
      (forUser : Uid) (opts : Option QueryOpt) (maxResults : Int),
      messageGetAll messages dellog topic forUser opts maxResults = none) ∧
    messageGetAllRows demoC1Msgs [⟨"grp1", 7, 1, 2, 4⟩] "grp1" ⟨7⟩ none 1024
      = [⟨5, "grp1", 3, 0, none, none, none⟩, ⟨4, "grp1", 3, 0, none, none, none⟩,
         ⟨1, "grp1", 3, 0, none, none, none⟩] ∧
    messageGetAllRows demoC1Msgs [⟨"grp1", 7, 1, 2, 4⟩] "grp1" ⟨9⟩ none 1024
      = [⟨5, "grp1", 3, 0, none, none, none⟩, ⟨4, "grp1", 3, 0, none, none, none⟩,
         ⟨3, "grp1", 3, 0, none, none, none⟩, ⟨2, "grp1", 3, 0, none, none, none⟩,
         ⟨1, "grp1", 3, 0, none, none, none⟩] :=
  ⟨fun _ _ _ _ _ _ => rfl, by decide, by decide⟩

/-- C2 (code bug): after two separate delete-for-user events — delId 1 with
the single-element range `[1,0)` and delId 2 with `[5,0)` — the read-back of
the deletion log reports the second event with ranges `[[1,0],[5,0]]` rather
than `[[5,0]]`: the scan loop never resets `SeqIdRanges` between `delid`
groups, so the read path is not the inverse of the write path over sequences
of writes. -/
theorem c2_deletion_log_not_roundtrip :
    messageDeleteList [] [] "grp1" (some ⟨"grp1", "11", 1, [⟨1, 0⟩]⟩) 100
      = .ok [⟨"grp1", 11, 1, 1, 2⟩] [] ∧
    messageDeleteList [⟨"grp1", 11, 1, 1, 2⟩] [] "grp1" (some ⟨"grp1", "11", 2, [⟨5, 0⟩]⟩) 100
      = .ok [⟨"grp1", 11, 1, 1, 2⟩, ⟨"grp1", 11, 2, 5, 6⟩] [] ∧
    messageGetDeleted [⟨"grp1", 11, 1, 1, 2⟩, ⟨"grp1", 11, 2, 5, 6⟩] "grp1" ⟨11⟩ none 1024
      = [⟨"grp1", "11", 1, [⟨1, 0⟩]⟩, ⟨"grp1", "11", 2, [⟨1, 0⟩, ⟨5, 0⟩]⟩] := by
  refine ⟨by decide, by decide, by decide⟩

/-- C3 (code bug): deleting with an empty range list is a no-op returning
without error for a per-user deletion (`DeletedFor ≠ ""`), but on the
delete-for-everyone path (`DeletedFor = ""`) the Go code indexes
`SeqIdRanges[0]` on the empty slice and panics instead of returning. -/
theorem c3_empty_ranges_panic (dellog : List DellogRow) (messages : List MsgRow)
    (topic delFor : String) (delId : Int) (now : Nat) :
    (delFor ≠ "" →
      messageDeleteList dellog messages topic (some ⟨topic, delFor, delId, []⟩) now
        = .ok dellog messages) ∧
    messageDeleteList dellog messages topic (some ⟨topic, "", delId, []⟩) now
      = .indexOutOfRange := by
  constructor
  · intro h
    simp [messageDeleteList, h]
  · simp [messageDeleteList]

/-- Witness for C3 at a concrete per-user input and a concrete
delete-for-everyone input. -/
theorem c3_empty_ranges_panic_witness :
    messageDeleteList [] [] "grp1" (some ⟨"grp1", "11", 5, []⟩) 0 = .ok [] [] ∧
    messageDeleteList [] [] "grp1" (some ⟨"grp1", "", 5, []⟩) 0 = .indexOutOfRange :=
  ⟨(c3_empty_ranges_panic [] [] "grp1" "11" 5 0).1 (by decide),
   (c3_empty_ranges_panic [] [] "grp1" "" 5 0).2⟩

/-! ## Credentials -/

/-- A row of the `credentials` table.  The schema declares
`CONSTRAINT credentials_uniqueness UNIQUE(synthetic)`; `retries` defaults to
0 and `deletedat` to NULL. -/
structure CredRow where
  synthetic : String
  userid : Nat
  method : String
  value : String
  resp : String
  done : Bool
  retries : Nat
  deletedat : Option Nat
  createdat : Nat
  updatedat : Nat
deriving DecidableEq, Repr

/-- `t.Credential` as passed to `CredUpsert` (the fields the adapter reads). -/
structure Credential where
  user : String
  method : String
  value : String
  resp : String
  done : Bool
  createdat : Nat
  updatedat : Nat
deriving DecidableEq, Repr

/-- Store errors surfaced by the credential operations.  `errEngine` stands
for a generic relational-engine error (this port's `isDupe` always reports
false, so a uniqueness violation on insert surfaces as a generic error). -/
inductive StoreErr where
  | errDuplicate
  | errNotFound
  | errEngine
deriving DecidableEq, Repr

/-- Result of `CredUpsert`: the credentials table after the call, the
"inserted" flag, and the error if any (on error the transaction rolls back,
so the table is returned unchanged). -/
structure CredUpsertResult where
  table : List CredRow
  inserted : Bool
  err : Option StoreErr
deriving DecidableEq, Repr

/-- The soft-delete `UPDATE` of `CredUpsert` (adapter.go:2309): deactivate
all unvalidated records of this user and method. -/
def credSoftDelOthers (userId : Nat) (method : String) (now : Nat) (r : CredRow) : CredRow :=
  if r.userid == userId && r.method == method && !r.done then { r with deletedat := some now }
  else r

/-- The revive `UPDATE` of `CredUpsert` (adapter.go:2312): undelete, update
timestamp and response value of the row keyed by the unconfirmed synthetic
key. -/
def credRevive (synth' : String) (cred : Credential) (r : CredRow) : CredRow :=
  if r.synthetic == synth' then
    { r with updatedat := cred.updatedat, deletedat := none, resp := cred.resp, done := false }
  else r

/-- The `CredUpsert` transaction (adapter.go:2274-2339) as the code intends
it — that is, were the revive `UPDATE`'s `done=0` assignment a valid
boolean write; the statement as written cannot execute on PostgreSQL, see
`credUpsert`.  `now` stands for `t.TimeNow()`.  Unconfirmed path: fail with
a duplicate error when any row holds the bare synthetic key `method:value`;
otherwise soft-delete the user's unconfirmed rows of the method, revive a
row keyed `user:method:value` when one exists (the `UPDATE ...
RowsAffected` check), else insert a new row.  Confirmed path: hard-delete
the unconfirmed shadow row, then insert under the bare key; a
`UNIQUE(synthetic)` violation surfaces as an engine error and rolls the
transaction back. -/
def credUpsertIntended (table : List CredRow) (cred : Credential) (now : Nat) :
    CredUpsertResult :=
  let userId := decodeUidString cred.user
  let synth := cred.method ++ ":" ++ cred.value
  if !cred.done then
    if (table.find? fun r => r.synthetic == synth).isSome then
      ⟨table, false, some .errDuplicate⟩
    else
      let synth' := cred.user ++ ":" ++ synth
      let t1 := table.map (credSoftDelOthers userId cred.method now)
      let t2 := t1.map (credRevive synth' cred)
      let numrows := (t1.filter fun r => r.synthetic == synth').length
      if 0 < numrows then ⟨t2, false, none⟩
      else if t2.any fun r => r.synthetic == synth' then ⟨table, true, some .errEngine⟩
      else ⟨t2 ++ [⟨synth', userId, cred.method, cred.value, cred.resp, false, 0, none,
        cred.createdat, cred.updatedat⟩], true, none⟩
  else
    let t1 := table.filter fun r => !(r.synthetic == cred.user ++ ":" ++ synth)
    if t1.any fun r => r.synthetic == synth then ⟨table, true, some .errEngine⟩
    else ⟨t1 ++ [⟨synth, userId, cred.method, cred.value, cred.resp, true, 0, none,
      cred.createdat, cred.updatedat⟩], true, none⟩

/-- `CredUpsert` (adapter.go:2274-2339) as it actually behaves on
PostgreSQL: `credentials.done` is a boolean column (adapter.go:434) while
the revive `UPDATE` writes `done=0` (adapter.go:2312), an
integer-to-boolean assignment PostgreSQL rejects.  On the unconfirmed path
the duplicate check (a valid `SELECT`) still works, but past it the revive
statement always fails, the transaction rolls back, and the call reports
the engine error with the table unchanged.  The confirmed path (valid
`DELETE` and `INSERT`) behaves as intended. -/
def credUpsert (table : List CredRow) (cred : Credential) (now : Nat) : CredUpsertResult :=
  let userId := decodeUidString cred.user
  let synth := cred.method ++ ":" ++ cred.value
  if !cred.done then
    if (table.find? fun r => r.synthetic == synth).isSome then
      ⟨table, false, some .errDuplicate⟩
    else
      ⟨table, false, some .errEngine⟩
  else
    let t1 := table.filter fun r => !(r.synthetic == cred.user ++ ":" ++ synth)
    if t1.any fun r => r.synthetic == synth then ⟨table, true, some .errEngine⟩
    else ⟨t1 ++ [⟨synth, userId, cred.method, cred.value, cred.resp, true, 0, none,
      cred.createdat, cred.updatedat⟩], true, none⟩

theorem find?_isSome_of_mem {α : Type} (p : α → Bool) (l : List α) (x : α)
    (hx : x ∈ l) (hp : p x = true) : (l.find? p).isSome = true := by
  induction l with
  | nil => cases hx
  | cons a l ih =>
    rcases List.mem_cons.mp hx with rfl | hx'
    · simp [List.find?_cons, hp]
    · by_cases ha : p a <;> simp [List.find?_cons, ha, ih hx']

theorem filter_map_comm_cred (f : CredRow → CredRow) (p : CredRow → Bool) (l : List CredRow)
    (h : ∀ x, p (f x) = p x) : (l.map f).filter p = (l.filter p).map f := by
  induction l with
  | nil => rfl
  | cons a l ih =>
    by_cases ha : p a
    · simp [List.filter_cons, h, ha, ih]
    · simp [List.filter_cons, h, ha, ih]

theorem synthetic_credSoftDelOthers (userId : Nat) (method : String) (now : Nat) (r : CredRow) :
    (credSoftDelOthers userId method now r).synthetic = r.synthetic := by
  unfold credSoftDelOthers
  split <;> rfl

theorem synthetic_credRevive (synth' : String) (cred : Credential) (r : CredRow) :
    (credRevive synth' cred r).synthetic = r.synthetic := by
  unfold credRevive
  split <;> rfl

/-- The intended unconfirmed-upsert transaction (see `credUpsertIntended`):
(a) a confirmed record under the bare synthetic key `method:value` makes
the call fail with a duplicate error and change nothing; (b) otherwise,
when a unique record keyed `user:method:value` exists, the call revives
that record in place — clears its delete marker, updates its response and
timestamp, keeps its retry count — inserts no second row (the row count for
that synthetic key stays one), and soft-deletes the user's other
unconfirmed records of the same method. -/
theorem credUpsertIntended_revives (table : List CredRow) (cred : Credential) (now : Nat)
    (hdone : cred.done = false) :
    (∀ rc ∈ table, rc.synthetic = cred.method ++ ":" ++ cred.value → rc.done = true →
      credUpsertIntended table cred now = ⟨table, false, some .errDuplicate⟩) ∧
    (∀ r0 : CredRow,
      (∀ r ∈ table, r.synthetic ≠ cred.method ++ ":" ++ cred.value) →
      table.filter
          (fun r => r.synthetic == cred.user ++ ":" ++ (cred.method ++ ":" ++ cred.value))
        = [r0] →
      (credUpsertIntended table cred now).err = none ∧
      (credUpsertIntended table cred now).inserted = false ∧
      (credUpsertIntended table cred now).table.length = table.length ∧
      (credUpsertIntended table cred now).table.filter
          (fun r => r.synthetic == cred.user ++ ":" ++ (cred.method ++ ":" ++ cred.value))
        = [{ r0 with
              updatedat := cred.updatedat,
              deletedat := none,
              resp := cred.resp,
              done := false }] ∧
      (∀ r ∈ table, r.userid = decodeUidString cred.user → r.method = cred.method →
        r.done = false →
        r.synthetic ≠ cred.user ++ ":" ++ (cred.method ++ ":" ++ cred.value) →
        { r with deletedat := some now } ∈ (credUpsertIntended table cred now).table)) := by
  constructor
  · intro rc hrc hsyn hcdone
    have hfind : (table.find? fun r =>
        r.synthetic == cred.method ++ ":" ++ cred.value).isSome = true :=
      find?_isSome_of_mem _ _ rc hrc (by simp [hsyn])
    simp [credUpsertIntended, hdone, hfind]
  · intro r0 hbare huniq
    have hfind : (table.find? fun r =>
        r.synthetic == cred.method ++ ":" ++ cred.value) = none := by
      rw [List.find?_eq_none]
      intro r hr
      simp [hbare r hr]
    have hq1 : ∀ r : CredRow,
        ((credSoftDelOthers (decodeUidString cred.user) cred.method now r).synthetic
          == cred.user ++ ":" ++ (cred.method ++ ":" ++ cred.value))
        = (r.synthetic == cred.user ++ ":" ++ (cred.method ++ ":" ++ cred.value)) := by
      intro r
      rw [synthetic_credSoftDelOthers]
    have hq2 : ∀ r : CredRow,
        ((credRevive (cred.user ++ ":" ++ (cred.method ++ ":" ++ cred.value)) cred r).synthetic
          == cred.user ++ ":" ++ (cred.method ++ ":" ++ cred.value))
        = (r.synthetic == cred.user ++ ":" ++ (cred.method ++ ":" ++ cred.value)) := by
      intro r
      rw [synthetic_credRevive]
    have e1 : (table.map (credSoftDelOthers (decodeUidString cred.user) cred.method now)).filter
        (fun r => r.synthetic == cred.user ++ ":" ++ (cred.method ++ ":" ++ cred.value))
        = [credSoftDelOthers (decodeUidString cred.user) cred.method now r0] := by
      rw [filter_map_comm_cred _ _ _ hq1, huniq]
      rfl
    have hr0 : (r0.synthetic == cred.user ++ ":" ++ (cred.method ++ ":" ++ cred.value)) = true := by
      have hmem : r0 ∈ table.filter
          (fun r => r.synthetic == cred.user ++ ":" ++ (cred.method ++ ":" ++ cred.value)) := by
        rw [huniq]
        exact List.mem_singleton.mpr rfl
      exact (List.mem_filter.mp hmem).2
    have hres : credUpsertIntended table cred now =
        ⟨(table.map (credSoftDelOthers (decodeUidString cred.user) cred.method now)).map
          (credRevive (cred.user ++ ":" ++ (cred.method ++ ":" ++ cred.value)) cred),
          false, none⟩ := by
      simp [credUpsertIntended, hdone, hfind, e1]
    rw [hres]
    refine ⟨rfl, rfl, by simp, ?_, ?_⟩
    · rw [filter_map_comm_cred _ _ _ hq2, e1, List.map_singleton]
      congr 1
      unfold credRevive
      rw [if_pos (by rw [synthetic_credSoftDelOthers]; exact hr0)]
      unfold credSoftDelOthers
      split <;> rfl
    · intro r hr huser hmethod hrdone hsyn
      rw [List.map_map]
      have heq : (credRevive (cred.user ++ ":" ++ (cred.method ++ ":" ++ cred.value)) cred ∘
          credSoftDelOthers (decodeUidString cred.user) cred.method now) r
          = { r with deletedat := some now } := by
        simp only [Function.comp]
        unfold credSoftDelOthers
        rw [if_pos (by simp [huser, hmethod, hrdone])]
        unfold credRevive
        rw [if_neg (by simp [hsyn])]
      rw [← heq]
      exact List.mem_map_of_mem _ hr

/-- The intended transaction at a concrete table: user 11 re-upserts the
unconfirmed credential `email:alice@example.com`; the soft-deleted record
would be revived in place, the row count for the synthetic key staying
one. -/
theorem credUpsertIntended_revives_example :
    (credUpsertIntended
        [⟨"11:email:alice@example.com", 11, "email", "alice@example.com", "r1", false, 3, some 50, 1, 1⟩,
         ⟨"11:email:bob@example.com", 11, "email", "bob@example.com", "r0", false, 0, none, 1, 1⟩]
        ⟨"11", "email", "alice@example.com", "r2", false, 7, 8⟩ 99).err = none ∧
    (credUpsertIntended
        [⟨"11:email:alice@example.com", 11, "email", "alice@example.com", "r1", false, 3, some 50, 1, 1⟩,
         ⟨"11:email:bob@example.com", 11, "email", "bob@example.com", "r0", false, 0, none, 1, 1⟩]
        ⟨"11", "email", "alice@example.com", "r2", false, 7, 8⟩ 99).inserted = false ∧
    (credUpsertIntended
        [⟨"11:email:alice@example.com", 11, "email", "alice@example.com", "r1", false, 3, some 50, 1, 1⟩,
         ⟨"11:email:bob@example.com", 11, "email", "bob@example.com", "r0", false, 0, none, 1, 1⟩]
        ⟨"11", "email", "alice@example.com", "r2", false, 7, 8⟩ 99).table.length = 2 ∧
    (credUpsertIntended
        [⟨"11:email:alice@example.com", 11, "email", "alice@example.com", "r1", false, 3, some 50, 1, 1⟩,
         ⟨"11:email:bob@example.com", 11, "email", "bob@example.com", "r0", false, 0, none, 1, 1⟩]
        ⟨"11", "email", "alice@example.com", "r2", false, 7, 8⟩ 99).table.filter
        (fun r => r.synthetic == "11" ++ ":" ++ ("email" ++ ":" ++ "alice@example.com"))
      = [⟨"11:email:alice@example.com", 11, "email", "alice@example.com", "r2", false, 3, none, 1, 8⟩] := by
  have h := (credUpsertIntended_revives
    [⟨"11:email:alice@example.com", 11, "email", "alice@example.com", "r1", false, 3, some 50, 1, 1⟩,
     ⟨"11:email:bob@example.com", 11, "email", "bob@example.com", "r0", false, 0, none, 1, 1⟩]
    ⟨"11", "email", "alice@example.com", "r2", false, 7, 8⟩ 99 rfl).2
    ⟨"11:email:alice@example.com", 11, "email", "alice@example.com", "r1", false, 3, some 50, 1, 1⟩
    (by decide) (by decide)
  exact ⟨h.1, h.2.1, h.2.2.1, h.2.2.2.1⟩

/-- C4 (code bug): `credentials.done` is a boolean column (adapter.go:434)
while the revive `UPDATE` of the unconfirmed-upsert path writes `done=0`
(adapter.go:2312), an integer-to-boolean assignment PostgreSQL rejects — so
every unconfirmed `CredUpsert` that passes the duplicate check fails with
an engine error and rolls back: nothing is revived, nothing soft-deleted,
the table unchanged, contrary to the claim's revival behavior.  The
duplicate half of the claim does hold: with a confirmed record under the
bare key `method:value` the call fails with a duplicate error and changes
nothing.  (`credUpsertIntended_revives` shows the transaction would behave
as claimed were the statement valid.) -/
theorem c4_cred_upsert_unconfirmed_broken (table : List CredRow) (cred : Credential)
    (now : Nat) (hdone : cred.done = false) :
    (∀ rc ∈ table, rc.synthetic = cred.method ++ ":" ++ cred.value → rc.done = true →
      credUpsert table cred now = ⟨table, false, some .errDuplicate⟩) ∧
    ((∀ r ∈ table, r.synthetic ≠ cred.method ++ ":" ++ cred.value) →
      credUpsert table cred now = ⟨table, false, some .errEngine⟩) := by
  constructor
  · intro rc hrc hsyn hcdone
    have hfind : (table.find? fun r =>
        r.synthetic == cred.method ++ ":" ++ cred.value).isSome = true :=
      find?_isSome_of_mem _ _ rc hrc (by simp [hsyn])
    simp [credUpsert, hdone, hfind]
  · intro hbare
    have hfind : (table.find? fun r =>
        r.synthetic == cred.method ++ ":" ++ cred.value) = none := by
      rw [List.find?_eq_none]
      intro r hr
      simp [hbare r hr]
    simp [credUpsert, hdone, hfind]

/-- Witness for C4 at concrete tables: upserting unconfirmed `email:a@x`
for user 11 hits the duplicate error when a confirmed row exists, and the
always-failing revive statement otherwise. -/
theorem c4_cred_upsert_unconfirmed_broken_witness :
    credUpsert [⟨"email:a@x", 3, "email", "a@x", "", true, 0, none, 1, 1⟩]
      ⟨"11", "email", "a@x", "r", false, 7, 8⟩ 99
      = ⟨[⟨"email:a@x", 3, "email", "a@x", "", true, 0, none, 1, 1⟩], false,
        some .errDuplicate⟩ ∧
    credUpsert [⟨"11:email:a@x", 11, "email", "a@x", "r1", false, 3, some 50, 1, 1⟩]
      ⟨"11", "email", "a@x", "r2", false, 7, 8⟩ 99
      = ⟨[⟨"11:email:a@x", 11, "email", "a@x", "r1", false, 3, some 50, 1, 1⟩], false,
        some .errEngine⟩ :=
  ⟨(c4_cred_upsert_unconfirmed_broken
      [⟨"email:a@x", 3, "email", "a@x", "", true, 0, none, 1, 1⟩]
      ⟨"11", "email", "a@x", "r", false, 7, 8⟩ 99 rfl).1
      ⟨"email:a@x", 3, "email", "a@x", "", true, 0, none, 1, 1⟩
      (by decide) (by decide) (by decide),
   (c4_cred_upsert_unconfirmed_broken
      [⟨"11:email:a@x", 11, "email", "a@x", "r1", false, 3, some 50, 1, 1⟩]
      ⟨"11", "email", "a@x", "r2", false, 7, 8⟩ 99 rfl).2 (by decide)⟩

/-- Topic name categories. -/
inductive TopicCat where
  | me
  | fnd
  | p2p
  | grp
deriving DecidableEq, Repr

/-- Whether the first list is an initial segment of the second. -/
def startsWithChars : List Char → List Char → Bool
  | [], _ => true
  | _ :: _, [] => false
  | p :: ps, c :: cs => p == c && startsWithChars ps cs

/-- Modelled from the spec: `t.GetTopicCat` (`store/types` is not in the
ported sources).  A topic name is the single-user topic `me`, the discovery
topic `fnd`, a p2p composite derived from the two participants (names
starting with `p2p`), or a group name. -/
def getTopicCat (topic : String) : TopicCat :=
  if topic = "me" then .me
  else if topic = "fnd" then .fnd
  else if startsWithChars "p2p".data topic.data then .p2p
  else .grp

/-- A row of the `users` table (the columns the modelled operations touch). -/
structure UserRow where
  id : Nat
  public : Option String
  tags : List String
  deletedat : Option Nat
deriving DecidableEq, Repr

/-- A row of the `subscriptions` table (the columns the modelled operations
touch; the schema declares `UNIQUE(topic, userid)`).  `privdata` stands for
the `private` column. -/
structure SubRow where
  userid : Nat
  topic : String
  deletedat : Option Nat
  privdata : Option String
deriving DecidableEq, Repr

/-- A row of the `topics` table (the columns the modelled operations touch). -/
structure TopicRow where
  name : String
  owner : Nat
  seqid : Int
  delid : Int
  public : Option String
  tags : List String
  deletedat : Option Nat
deriving DecidableEq, Repr

/-- `t.Subscription` as returned by the member-listing operations (the
fields the claims inspect).  Go stores the encoded uid string in `User`;
the model keeps the `Uid` itself (the encoding is injective). -/
structure SubOut where
  user : Uid
  topic : String
  deletedat : Option Nat
  public : Option String
  privdata : Option String
deriving DecidableEq, Repr

/-- The `opts.User` consulted by `UsersForTopic` (adapter.go:1288-1300). -/
def queryOneUser (opts : Option QueryOpt) : Uid :=
  match opts with
  | some o => if !o.user.IsZero then o.user else ZeroUid
  | none => ZeroUid

/-- The effective limit: `opts.Limit` when positive and below `maxResults`
(adapter.go:1301-1303). -/
def queryLimit (opts : Option QueryOpt) (maxResults : Int) : Int :=
  match opts with
  | some o => if 0 < o.limit ∧ o.limit < maxResults then o.limit else maxResults
  | none => maxResults

/-- The row set fetched by the `UsersForTopic` query (adapter.go:1267-1312):
the topic's subscriptions joined with their users, keeping rows of deleted
users only under `keepDeleted`, keeping deleted subscriptions under
`keepDeleted` or for P2P topics, and restricting to `oneUser` for non-P2P
topics when the caller asks for a single member. -/
def usersForTopicFetch (users : List UserRow) (subs : List SubRow) (topic : String)
    (keepDeleted : Bool) (oneUser : Uid) (limit : Int) : List SubOut :=
  let tcat := getTopicCat topic
  (((subs.filter fun s => s.topic == topic).flatMap fun s =>
    (users.filter fun u => u.id == s.userid
        && (keepDeleted || u.deletedat == none)
        && (keepDeleted || tcat == .p2p || s.deletedat == none)
        && (tcat == .p2p || oneUser.IsZero || s.userid == DecodeUid oneUser)).map fun u =>
      SubOut.mk (EncodeUid s.userid) s.topic s.deletedat u.public s.privdata)).take limit.toNat

/-- `UsersForTopic` (adapter.go:1264-1359): fetch the member rows, then for
a P2P topic swap the two members' public values (or clear the only one when
the other user was deleted), and drop deleted or unrequested subscriptions. -/
def usersForTopic (users : List UserRow) (subs : List SubRow) (topic : String)
    (keepDeleted : Bool) (opts : Option QueryOpt) (maxResults : Int) : List SubOut :=
  let tcat := getTopicCat topic
  let oneUser := queryOneUser opts
  let fetched := usersForTopicFetch users subs topic keepDeleted oneUser
    (queryLimit opts maxResults)
  if tcat == .p2p && !fetched.isEmpty then
    let swapped := match fetched with
      | [s0] => [{ s0 with public := none }]
      | s0 :: s1 :: rest =>
        { s0 with public := s1.public } :: { s1 with public := s0.public } :: rest
      | [] => []
    if !keepDeleted || !oneUser.IsZero then
      swapped.filter fun s =>
        !((s.deletedat != none && !keepDeleted) || (!oneUser.IsZero && !(s.user == oneUser)))
    else swapped
  else fetched

/-- C6: `UsersForTopic` on a P2P topic: when exactly two subscriptions are
fetched (for distinct members), every returned subscription carries the
public profile of the other member; when only one subscription is fetched
(the other user was deleted), its returned public profile is cleared. -/
theorem c6_p2p_profile_swap (users : List UserRow) (subs : List SubRow) (topic : String)
    (keepDeleted : Bool) (opts : Option QueryOpt) (maxResults : Int)
    (hp2p : getTopicCat topic = .p2p) :
    (∀ s0 s1 : SubOut,
      usersForTopicFetch users subs topic keepDeleted (queryOneUser opts)
          (queryLimit opts maxResults) = [s0, s1] →
      s0.user ≠ s1.user →
      ∀ r ∈ usersForTopic users subs topic keepDeleted opts maxResults,
        (r.user = s0.user → r.public = s1.public) ∧
        (r.user = s1.user → r.public = s0.public)) ∧
    (∀ s0 : SubOut,
      usersForTopicFetch users subs topic keepDeleted (queryOneUser opts)
          (queryLimit opts maxResults) = [s0] →
      ∀ r ∈ usersForTopic users subs topic keepDeleted opts maxResults,
        r.public = none) := by
  constructor
  · intro s0 s1 heq hne r hr
    have hswap : r ∈ [{ s0 with public := s1.public }, { s1 with public := s0.public }] := by
      simp only [usersForTopic, heq, hp2p] at hr
      simp only [beq_self_eq_true, List.isEmpty_cons, Bool.not_false, Bool.and_self,
        if_true] at hr
      split at hr
      · exact List.mem_filter.mp hr |>.1
      · exact hr
    rcases List.mem_cons.mp hswap with rfl | hswap'
    · exact ⟨fun _ => rfl, fun h => absurd h hne⟩
    · rcases List.mem_cons.mp hswap' with rfl | h
      · exact ⟨fun h => absurd h.symm hne, fun _ => rfl⟩
      · cases h
  · intro s0 heq r hr
    have hswap : r ∈ [{ s0 with public := (none : Option String) }] := by
      simp only [usersForTopic, heq, hp2p] at hr
      simp only [beq_self_eq_true, List.isEmpty_cons, Bool.not_false, Bool.and_self,
        if_true] at hr
      split at hr
      · exact List.mem_filter.mp hr |>.1
      · exact hr
    rcases List.mem_cons.mp hswap with rfl | h
    · rfl
    · cases h

/-- Witness for C6: a P2P topic between users 1 and 2 with public values
`PA`/`PB` swaps them pairwise; when user 1 is soft-deleted only user 2's
subscription is fetched and its public value is cleared. -/
theorem c6_p2p_profile_swap_witness :
    (∀ r ∈ usersForTopic
        [⟨1, some "PA", [], none⟩, ⟨2, some "PB", [], none⟩]
        [⟨1, "p2pAB", none, none⟩, ⟨2, "p2pAB", none, none⟩]
        "p2pAB" false none 1024,
      (r.user = EncodeUid 1 → r.public = some "PB") ∧
      (r.user = EncodeUid 2 → r.public = some "PA")) ∧
    (∀ r ∈ usersForTopic
        [⟨1, some "PA", [], some 5⟩, ⟨2, some "PB", [], none⟩]
        [⟨1, "p2pAB", none, none⟩, ⟨2, "p2pAB", none, none⟩]
        "p2pAB" false none 1024,
      r.public = none) :=
  ⟨(c6_p2p_profile_swap
      [⟨1, some "PA", [], none⟩, ⟨2, some "PB", [], none⟩]
      [⟨1, "p2pAB", none, none⟩, ⟨2, "p2pAB", none, none⟩]
      "p2pAB" false none 1024 (by decide)).1
      ⟨EncodeUid 1, "p2pAB", none, some "PA", none⟩
      ⟨EncodeUid 2, "p2pAB", none, some "PB", none⟩
      (by decide) (by decide),
   (c6_p2p_profile_swap
      [⟨1, some "PA", [], some 5⟩, ⟨2, some "PB", [], none⟩]
      [⟨1, "p2pAB", none, none⟩, ⟨2, "p2pAB", none, none⟩]
      "p2pAB" false none 1024 (by decide)).2
      ⟨EncodeUid 2, "p2pAB", none, some "PB", none⟩
      (by decide)⟩

/-! ## Tag search -/

/-- A row of `usertags` (`UNIQUE(userid, tag)`). -/
structure UserTagRow where
  userid : Nat
  tag : String
deriving DecidableEq, Repr

/-- A row of `topictags` (`UNIQUE(topic, tag)`). -/
structure TopicTagRow where
  topic : String
  tag : String
deriving DecidableEq, Repr

/-- An entry returned by `FindUsers`: encoded user id, public payload, and
the matched tags reported in the `Private` field. -/
structure FindUserSub where
  user : Uid
  public : Option String
  foundTags : List String
deriving DecidableEq, Repr

/-- An entry returned by `FindTopics`. -/
structure FindTopicSub where
  topic : String
  public : Option String
  foundTags : List String
deriving DecidableEq, Repr

/-- Per-user group size of the `FindUsers` join: the number of `usertags`
rows of `uid` whose tag is among `args` (`COUNT(*) AS matches`; with
`args := req` it is the `HAVING COUNT(t.tag IN (req...) OR NULL)` count). -/
def userTagMatches (utags : List UserTagRow) (uid : Nat) (args : List String) : Nat :=
  (utags.filter fun t => t.userid == uid && args.contains t.tag).length

/-- `FindUsers` (adapter.go:1719-1794): keep non-deleted users with at
least one tag among `req ++ opt` (the `WHERE t.tag IN (...)` join), and —
when `req` is nonempty — with at least `len(req)` matching required-tag
rows (`HAVING ... >= $n`); order by total match count descending; truncate
to `maxResults`; drop the querying user while scanning rows; report the
user's tags that occur in the query as `Private`. -/
def findUsers (users : List UserRow) (utags : List UserTagRow) (uid : Uid)
    (req opt : List String) (maxResults : Int) : List FindUserSub :=
  let args := req ++ opt
  let candidates := (users.filter fun u =>
    u.deletedat == none && 0 < userTagMatches utags u.id args &&
      (req.isEmpty || decide (req.length ≤ userTagMatches utags u.id req))).map
    fun u => (u, userTagMatches utags u.id args)
  let limited := (sortDescBy (fun p => (p.2 : Int)) candidates).take maxResults.toNat
  (limited.filter fun p => !(p.1.id == DecodeUid uid)).map fun p =>
    FindUserSub.mk (EncodeUid p.1.id) p.1.public (p.1.tags.filter fun tg => args.contains tg)

/-- Per-topic group size of the `FindTopics` join. -/
def topicTagMatches (ttags : List TopicTagRow) (name : String) (args : List String) : Nat :=
  (ttags.filter fun t => t.topic == name && args.contains t.tag).length

/-- `FindTopics` (adapter.go:1798-1871): the same query shape as
`FindUsers` over `topics`/`topictags`, without the querying-user skip. -/
def findTopics (topics : List TopicRow) (ttags : List TopicTagRow)
    (req opt : List String) (maxResults : Int) : List FindTopicSub :=
  let args := req ++ opt
  let candidates := (topics.filter fun t =>
    t.deletedat == none && 0 < topicTagMatches ttags t.name args &&
      (req.isEmpty || decide (req.length ≤ topicTagMatches ttags t.name req))).map
    fun t => (t, topicTagMatches ttags t.name args)
  ((sortDescBy (fun p => (p.2 : Int)) candidates).take maxResults.toNat).map fun p =>
    FindTopicSub.mk p.1.name p.1.public (p.1.tags.filter fun tg => args.contains tg)

/-! ## Single-entity reads and list reads (soft-delete visibility) -/

/-- `UserGet` (adapter.go:682-698): `SELECT * FROM users WHERE id=$1 AND
deletedat IS NULL`; an absent row is reported as `none` with no error. -/
def userGet (users : List UserRow) (uid : Uid) : Option UserRow :=
  users.find? fun u => u.id == DecodeUid uid && u.deletedat == none

/-- `TopicGet` (adapter.go:1088-1107): `SELECT ... FROM topics WHERE
name=$1` — note that the query has no `deletedat` filter. -/
def topicGet (topics : List TopicRow) (topic : String) : Option TopicRow :=
  topics.find? fun t => t.name == topic

/-- `SubscriptionGet` (adapter.go:1492-1513): fetch by (topic, user), then
return `none` when the fetched row carries a deletion timestamp. -/
def subscriptionGet (subs : List SubRow) (topic : String) (user : Uid) : Option SubRow :=
  match subs.find? fun s => s.topic == topic && s.userid == DecodeUid user with
  | none => none
  | some s => if s.deletedat != none then none else some s

/-- `SubsForUser` (adapter.go:1525-1571): the user's subscriptions, without
the soft-deleted ones unless `keepDeleted`, optionally restricted to one
topic (`opts.Topic`), truncated to the effective limit. -/
def subsForUser (subs : List SubRow) (forUser : Uid) (keepDeleted : Bool)
    (topicFilter : Option String) (limit : Int) : List SubRow :=
  (subs.filter fun s => s.userid == DecodeUid forUser
      && (keepDeleted || s.deletedat == none)
      && (match topicFilter with
          | some t => s.topic == t
          | none => true)).take limit.toNat

/-! ### Counting lemmas for the `HAVING` threshold -/

theorem length_filter_proj {α : Type} (rows : List α) (keyMatch : α → Bool)
    (tagOf : α → String) (p : String → Bool) :
    (rows.filter fun t => keyMatch t && p (tagOf t)).length
      = (((rows.filter keyMatch).map tagOf).filter p).length := by
  induction rows with
  | nil => rfl
  | cons t ts ih =>
    by_cases h1 : keyMatch t
    · by_cases h2 : p (tagOf t) <;> simp [List.filter_cons, h1, h2, ih]
    · simp [List.filter_cons, h1, ih]

theorem perKeyTags_nodup {α : Type} (rows : List α) (keyMatch : α → Bool)
    (tagOf : α → String) (h : rows.Nodup)
    (hinj : ∀ x y, keyMatch x = true → keyMatch y = true → tagOf x = tagOf y → x = y) :
    ((rows.filter keyMatch).map tagOf).Nodup := by
  apply List.Nodup.map_on ?_ (h.filter _)
  intro x hx y hy hxy
  exact hinj x y (List.mem_filter.mp hx).2 (List.mem_filter.mp hy).2 hxy

theorem all_req_mem_of_count (tags req : List String) (hnd : tags.Nodup)
    (hcount : req.length ≤ (tags.filter fun tg => req.contains tg).length) :
    ∀ tg ∈ req, tg ∈ tags := by
  intro tg htg
  have hSnd : (tags.filter fun tg => req.contains tg).Nodup := hnd.filter _
  have hsub : (tags.filter fun tg => req.contains tg).toFinset ⊆ req.toFinset := by
    intro x hx
    rw [List.mem_toFinset] at hx ⊢
    have hx2 := (List.mem_filter.mp hx).2
    simpa using hx2
  have hcard : req.toFinset.card ≤ (tags.filter fun tg => req.contains tg).toFinset.card := by
    rw [List.toFinset_card_of_nodup hSnd]
    exact le_trans req.toFinset_card_le hcount
  have heq := Finset.eq_of_subset_of_card_le hsub hcard
  have hmem : tg ∈ (tags.filter fun tg => req.contains tg).toFinset := by
    rw [heq]
    exact List.mem_toFinset.mpr htg
  exact (List.mem_filter.mp (List.mem_toFinset.mp hmem)).1

theorem userTagMatches_all_req (utags : List UserTagRow) (id : Nat) (req : List String)
    (hnd : utags.Nodup) (hcount : req.length ≤ userTagMatches utags id req) :
    ∀ tg ∈ req, ∃ t ∈ utags, t.userid = id ∧ t.tag = tg := by
  intro tg htg
  have hrw : userTagMatches utags id req
      = (((utags.filter fun t => t.userid == id).map fun t => t.tag).filter
          fun tg => req.contains tg).length :=
    length_filter_proj utags (fun t => t.userid == id) (fun t => t.tag)
      (fun tg => req.contains tg)
  have hndt : ((utags.filter fun t => t.userid == id).map fun t => t.tag).Nodup := by
    apply perKeyTags_nodup utags _ _ hnd
    intro x y hx hy hxy
    cases x
    cases y
    simp only [beq_iff_eq] at hx hy
    simp_all
  have hmem : tg ∈ (utags.filter fun t => t.userid == id).map fun t => t.tag :=
    all_req_mem_of_count _ req hndt (hrw ▸ hcount) tg htg
  obtain ⟨t, htmem, htag⟩ := List.mem_map.mp hmem
  have h2 := List.mem_filter.mp htmem
  exact ⟨t, h2.1, by simpa using h2.2, htag⟩

theorem topicTagMatches_all_req (ttags : List TopicTagRow) (name : String) (req : List String)
    (hnd : ttags.Nodup) (hcount : req.length ≤ topicTagMatches ttags name req) :
    ∀ tg ∈ req, ∃ t ∈ ttags, t.topic = name ∧ t.tag = tg := by
  intro tg htg
  have hrw : topicTagMatches ttags name req
      = (((ttags.filter fun t => t.topic == name).map fun t => t.tag).filter
          fun tg => req.contains tg).length :=
    length_filter_proj ttags (fun t => t.topic == name) (fun t => t.tag)
      (fun tg => req.contains tg)
  have hndt : ((ttags.filter fun t => t.topic == name).map fun t => t.tag).Nodup := by
    apply perKeyTags_nodup ttags _ _ hnd
    intro x y hx hy hxy
    cases x
    cases y
    simp only [beq_iff_eq] at hx hy
    simp_all
  have hmem : tg ∈ (ttags.filter fun t => t.topic == name).map fun t => t.tag :=
    all_req_mem_of_count _ req hndt (hrw ▸ hcount) tg htg
  obtain ⟨t, htmem, htag⟩ := List.mem_map.mp hmem
  have h2 := List.mem_filter.mp htmem
  exact ⟨t, h2.1, by simpa using h2.2, htag⟩

/-- C7: tag search returns only entities matching every required tag — an
entity matching merely a proper subset of `req` is excluded whatever
optional tags it matches — and orders its results by the total number of
matched tags over `req ++ opt`, descending; stated for both `FindUsers` and
`FindTopics`.  The `Nodup` hypotheses are the schema constraints
`UNIQUE(userid, tag)` and `UNIQUE(topic, tag)` on the tag tables. -/
theorem c7_tag_search (users : List UserRow) (utags : List UserTagRow)
    (topics : List TopicRow) (ttags : List TopicTagRow) (uid : Uid)
    (req opt : List String) (maxResults : Int)
    (hu : utags.Nodup) (ht : ttags.Nodup) :
    (∀ sub ∈ findUsers users utags uid req opt maxResults, ∀ tg ∈ req,
      ∃ t ∈ utags, t.userid = DecodeUid sub.user ∧ t.tag = tg) ∧
    ((findUsers users utags uid req opt maxResults).Pairwise
      fun a b => userTagMatches utags (DecodeUid b.user) (req ++ opt)
        ≤ userTagMatches utags (DecodeUid a.user) (req ++ opt)) ∧
    (∀ sub ∈ findTopics topics ttags req opt maxResults, ∀ tg ∈ req,
      ∃ t ∈ ttags, t.topic = sub.topic ∧ t.tag = tg) ∧
    ((findTopics topics ttags req opt maxResults).Pairwise
      fun a b => topicTagMatches ttags b.topic (req ++ opt)
        ≤ topicTagMatches ttags a.topic (req ++ opt)) := by
  refine ⟨?_, ?_, ?_, ?_⟩
  · intro sub hsub tg htg
    simp only [findUsers] at hsub
    obtain ⟨p, hp, rfl⟩ := List.mem_map.mp hsub
    have hp1 := (List.mem_filter.mp hp).1
    have hp2 := List.Sublist.mem hp1 (List.take_sublist _ _)
    have hp3 := (mem_sortDescBy _ _ _).mp hp2
    obtain ⟨u, humem, rfl⟩ := List.mem_map.mp hp3
    have hu2 := (List.mem_filter.mp humem).2
    simp only [Bool.and_eq_true, Bool.or_eq_true, decide_eq_true_eq] at hu2
    rcases hu2.2 with hemp | hcnt
    · rw [List.isEmpty_iff] at hemp
      rw [hemp] at htg
      cases htg
    · obtain ⟨t, h1, h2, h3⟩ := userTagMatches_all_req utags u.id req hu hcnt tg htg
      exact ⟨t, h1, h2, h3⟩
  · simp only [findUsers]
    apply List.pairwise_map.mpr
    have hcand : ∀ p ∈ (users.filter fun u =>
        u.deletedat == none && decide (0 < userTagMatches utags u.id (req ++ opt)) &&
          (req.isEmpty || decide (req.length ≤ userTagMatches utags u.id req))).map
        (fun u => (u, userTagMatches utags u.id (req ++ opt))),
        p.2 = userTagMatches utags p.1.id (req ++ opt) := by
      intro p hp
      obtain ⟨u, _, rfl⟩ := List.mem_map.mp hp
      rfl
    have h0 := pairwise_sortDescBy (fun p : UserRow × Nat => (p.2 : Int))
      ((users.filter fun u =>
        u.deletedat == none && decide (0 < userTagMatches utags u.id (req ++ opt)) &&
          (req.isEmpty || decide (req.length ≤ userTagMatches utags u.id req))).map
        (fun u => (u, userTagMatches utags u.id (req ++ opt))))
    have h1 := h0.sublist (List.take_sublist maxResults.toNat _)
    have h2 := h1.sublist
      (@List.filter_sublist _ (fun p : UserRow × Nat => !(p.1.id == DecodeUid uid)) _)
    apply List.Pairwise.imp_of_mem ?_ h2
    intro a b ha hb hr
    have hamem := (mem_sortDescBy _ _ _).mp
      (List.Sublist.mem (List.Sublist.mem ha (List.filter_sublist _)) (List.take_sublist _ _))
    have hbmem := (mem_sortDescBy _ _ _).mp
      (List.Sublist.mem (List.Sublist.mem hb (List.filter_sublist _)) (List.take_sublist _ _))
    have ha' := hcand a hamem
    have hb' := hcand b hbmem
    show userTagMatches utags b.1.id (req ++ opt) ≤ userTagMatches utags a.1.id (req ++ opt)
    rw [← ha', ← hb']
    exact_mod_cast hr
  · intro sub hsub tg htg
    simp only [findTopics] at hsub
    obtain ⟨p, hp, rfl⟩ := List.mem_map.mp hsub
    have hp2 := List.Sublist.mem hp (List.take_sublist _ _)
    have hp3 := (mem_sortDescBy _ _ _).mp hp2
    obtain ⟨tp, htmem, rfl⟩ := List.mem_map.mp hp3
    have ht2 := (List.mem_filter.mp htmem).2
    simp only [Bool.and_eq_true, Bool.or_eq_true, decide_eq_true_eq] at ht2
    rcases ht2.2 with hemp | hcnt
    · rw [List.isEmpty_iff] at hemp
      rw [hemp] at htg
      cases htg
    · obtain ⟨t, h1, h2, h3⟩ := topicTagMatches_all_req ttags tp.name req ht hcnt tg htg
      exact ⟨t, h1, h2, h3⟩
  · simp only [findTopics]
    apply List.pairwise_map.mpr
    have hcand : ∀ p ∈ (topics.filter fun t =>
        t.deletedat == none && decide (0 < topicTagMatches ttags t.name (req ++ opt)) &&
          (req.isEmpty || decide (req.length ≤ topicTagMatches ttags t.name req))).map
        (fun t => (t, topicTagMatches ttags t.name (req ++ opt))),
        p.2 = topicTagMatches ttags p.1.name (req ++ opt) := by
      intro p hp
      obtain ⟨t, _, rfl⟩ := List.mem_map.mp hp
      rfl
    have h0 := pairwise_sortDescBy (fun p : TopicRow × Nat => (p.2 : Int))
      ((topics.filter fun t =>
        t.deletedat == none && decide (0 < topicTagMatches ttags t.name (req ++ opt)) &&
          (req.isEmpty || decide (req.length ≤ topicTagMatches ttags t.name req))).map
        (fun t => (t, topicTagMatches ttags t.name (req ++ opt))))
    have h1 := h0.sublist (List.take_sublist maxResults.toNat _)
    apply List.Pairwise.imp_of_mem ?_ h1
    intro a b ha hb hr
    have hamem := (mem_sortDescBy _ _ _).mp (List.Sublist.mem ha (List.take_sublist _ _))
    have hbmem := (mem_sortDescBy _ _ _).mp (List.Sublist.mem hb (List.take_sublist _ _))
    have ha' := hcand a hamem
    have hb' := hcand b hbmem
    show topicTagMatches ttags b.1.name (req ++ opt) ≤ topicTagMatches ttags a.1.name (req ++ opt)
    rw [← ha', ← hb']
    exact_mod_cast hr

/-- Users table for the C7 witness. -/
def findDemoUsers : List UserRow :=
  [⟨1, some "U1", ["alpha", "beta", "gamma"], none⟩,
   ⟨2, some "U2", ["alpha"], none⟩,
   ⟨3, some "U3", ["alpha", "beta"], none⟩]

/-- `usertags` rows for the C7 witness. -/
def findDemoUserTags : List UserTagRow :=
  [⟨1, "alpha"⟩, ⟨1, "beta"⟩, ⟨1, "gamma"⟩, ⟨2, "alpha"⟩, ⟨3, "alpha"⟩, ⟨3, "beta"⟩]

/-- Topics table for the C7 witness. -/
def findDemoTopics : List TopicRow :=
  [⟨"grpA", 1, 0, 0, some "TA", ["alpha", "beta"], none⟩,
   ⟨"grpB", 1, 0, 0, some "TB", ["alpha"], none⟩]

/-- `topictags` rows for the C7 witness. -/
def findDemoTopicTags : List TopicTagRow :=
  [⟨"grpA", "alpha"⟩, ⟨"grpA", "beta"⟩, ⟨"grpB", "alpha"⟩]

/-- Witness for C7 at a concrete search: required tags `alpha, beta`,
optional tag `gamma`, querying user 9. -/
theorem c7_tag_search_witness :
    (∀ sub ∈ findUsers findDemoUsers findDemoUserTags ⟨9⟩ ["alpha", "beta"] ["gamma"] 1024,
      ∀ tg ∈ ["alpha", "beta"],
      ∃ t ∈ findDemoUserTags, t.userid = DecodeUid sub.user ∧ t.tag = tg) ∧
    ((findUsers findDemoUsers findDemoUserTags ⟨9⟩ ["alpha", "beta"] ["gamma"] 1024).Pairwise
      fun a b => userTagMatches findDemoUserTags (DecodeUid b.user) (["alpha", "beta"] ++ ["gamma"])
        ≤ userTagMatches findDemoUserTags (DecodeUid a.user) (["alpha", "beta"] ++ ["gamma"])) ∧
    (∀ sub ∈ findTopics findDemoTopics findDemoTopicTags ["alpha", "beta"] ["gamma"] 1024,
      ∀ tg ∈ ["alpha", "beta"],
      ∃ t ∈ findDemoTopicTags, t.topic = sub.topic ∧ t.tag = tg) ∧
    ((findTopics findDemoTopics findDemoTopicTags ["alpha", "beta"] ["gamma"] 1024).Pairwise
      fun a b => topicTagMatches findDemoTopicTags b.topic (["alpha", "beta"] ++ ["gamma"])
        ≤ topicTagMatches findDemoTopicTags a.topic (["alpha", "beta"] ++ ["gamma"])) :=
  c7_tag_search findDemoUsers findDemoUserTags findDemoTopics findDemoTopicTags ⟨9⟩
    ["alpha", "beta"] ["gamma"] 1024 (by decide) (by decide)

/-- C10: `FindUsers` never returns the querying user, whatever the tag
lists: the scan loop skips the row whose user id equals the caller's. -/
theorem c10_find_users_skips_caller (users : List UserRow) (utags : List UserTagRow)
    (uid : Uid) (req opt : List String) (maxResults : Int) :
    ∀ sub ∈ findUsers users utags uid req opt maxResults, sub.user ≠ uid := by
  intro sub hsub heq
  simp only [findUsers] at hsub
  obtain ⟨p, hp, rfl⟩ := List.mem_map.mp hsub
  have hskip := (List.mem_filter.mp hp).2
  simp only [Bool.not_eq_true', beq_eq_false_iff_ne, ne_eq] at hskip
  apply hskip
  have henc : EncodeUid p.1.id = uid := heq
  calc p.1.id = DecodeUid (EncodeUid p.1.id) := rfl
    _ = DecodeUid uid := by rw [henc]

/-- Witness for C10: user 9 searches for tag `alpha`; the single matching
entry returned is user 1, not user 9. -/
theorem c10_find_users_skips_caller_witness :
    (FindUserSub.mk (EncodeUid 1) (some "U1") ["alpha"]).user ≠ ⟨9⟩ :=
  c10_find_users_skips_caller [⟨1, some "U1", ["alpha"], none⟩] [⟨1, "alpha"⟩] ⟨9⟩
    ["alpha"] [] 10 ⟨EncodeUid 1, some "U1", ["alpha"]⟩ (by decide)

/-- C8 counterexample: `TopicGet` returns a soft-deleted topic — its query
(adapter.go:1092) has no `deletedat IS NULL` filter — contradicting the
claim that every default single-entity read hides soft-deleted entities
(topics are soft-deleted by `TopicDelete`, adapter.go:1437). -/
theorem c8_topic_get_returns_soft_deleted :
    topicGet [⟨"grpX", 1, 0, 0, none, [], some 5⟩] "grpX"
      = some ⟨"grpX", 1, 0, 0, none, [], some 5⟩ ∧
    (⟨"grpX", 1, 0, 0, none, [], some 5⟩ : TopicRow).deletedat ≠ none := by
  exact ⟨rfl, by decide⟩

/-- C8 (amended): soft-deleted users and subscriptions are invisible to the
default single-entity reads — `UserGet` and `SubscriptionGet` return an
absent result — and the default list read (`SubsForUser` with
`keepDeleted = false`) never returns a soft-deleted subscription; `TopicGet`,
however, does not filter by the deletion timestamp and returns a
soft-deleted topic. -/
theorem c8_soft_delete_invisible (users : List UserRow) (subs : List SubRow)
    (uid : Uid) (topic : String) (user : Uid) (topicFilter : Option String) (limit : Int) :
    ((∀ u ∈ users, u.id = DecodeUid uid → u.deletedat ≠ none) →
      userGet users uid = none) ∧
    (∀ s : SubRow,
      (subs.find? fun s => s.topic == topic && s.userid == DecodeUid user) = some s →
      s.deletedat ≠ none → subscriptionGet subs topic user = none) ∧
    (∀ s ∈ subsForUser subs uid false topicFilter limit, s.deletedat = none) := by
  refine ⟨?_, ?_, ?_⟩
  · intro h
    unfold userGet
    rw [List.find?_eq_none]
    intro u humem
    simp only [Bool.and_eq_true, beq_iff_eq, not_and]
    intro hid
    exact h u humem hid
  · intro s hfind hdel
    unfold subscriptionGet
    rw [hfind]
    have hb : (s.deletedat != none) = true := by
      simpa using hdel
    simp only [hb, if_true]
  · intro s hs
    have hs2 := List.Sublist.mem hs (List.take_sublist _ _)
    have hcond := (List.mem_filter.mp hs2).2
    simp only [Bool.false_or, Bool.and_eq_true, beq_iff_eq] at hcond
    exact hcond.1.2

/-- Witness for C8 at a concrete state: a soft-deleted user, a soft-deleted
subscription, and a subscription list holding one live and one soft-deleted
row. -/
theorem c8_soft_delete_invisible_witness :
    userGet [⟨4, some "P", [], some 9⟩] ⟨4⟩ = none ∧
    subscriptionGet [⟨4, "grpX", some 9, none⟩] "grpX" ⟨4⟩ = none ∧
    (∀ s ∈ subsForUser [⟨4, "grpX", some 9, none⟩, ⟨4, "grpY", none, none⟩] ⟨4⟩ false none 1024,
      s.deletedat = none) := by
  have h := c8_soft_delete_invisible [⟨4, some "P", [], some 9⟩]
    [⟨4, "grpX", some 9, none⟩] ⟨4⟩ "grpX" ⟨4⟩ none 1024
  have h2 := c8_soft_delete_invisible [⟨4, some "P", [], some 9⟩]
    [⟨4, "grpX", some 9, none⟩, ⟨4, "grpY", none, none⟩] ⟨4⟩ "grpX" ⟨4⟩ none 1024
  exact ⟨h.1 (by decide), h.2.1 ⟨4, "grpX", some 9, none⟩ (by decide) (by decide),
    h2.2.2⟩

end ChatAdapter
